import Mathlib

/-!
Shallow embedding of `src/csv_header.py` (class `CSVParser`): the header
resolution algorithm `find_header_row` and the error/success wrapper
`parse_csv`.  Tables are lists of rows; a row is a list of nullable cells
(`Option String`, `none` standing for a NaN cell filtered by `pd.notna`).
Python's insertion-ordered `dict` is modelled by an association list with
in-place update, and `list` by `List`.  String primitives (`str.strip`,
`str.lower`, `str.replace('\n', ' ')`) are modelled character-wise on the
ASCII fragment exercised by the schema and table contents.
-/

namespace CSVHeader

/-- Whitespace as recognised by Python `str.strip` (ASCII fragment). -/
def isPySpace (c : Char) : Bool :=
  c = ' ' || c = '\t' || c = '\n' || c = '\r' || c = '\x0b' || c = '\x0c'

/-- Python `str.strip`: drop leading and trailing whitespace. -/
def pyStrip (s : String) : String :=
  ⟨((s.data.dropWhile isPySpace).reverse.dropWhile isPySpace).reverse⟩

/-- Python `str.lower` (character-wise, ASCII fragment). -/
def pyLower (s : String) : String :=
  ⟨s.data.map Char.toLower⟩

/-- Python `str.replace('\n', ' ')`: the pattern is a single character, so
the replacement is a character map. -/
def pyReplaceNewline (s : String) : String :=
  ⟨s.data.map (fun c => if c = '\n' then ' ' else c)⟩

/-- Cell normalisation from line 56 of the source:
`str(col).strip().lower().replace('\n', ' ')`. -/
def normCellStr (s : String) : String :=
  pyReplaceNewline (pyLower (pyStrip s))

/-- One cell of `header_row`: `pd.notna(col)` keeps `None` for NaN cells. -/
def normCell : Option String → Option String
  | none => none
  | some s => some (normCellStr s)

/-- A table cell: `none` models a NaN / absent value. -/
abbrev Cell := Option String

/-- One table row, cells in column order. -/
abbrev Row := List Cell

/-- The table handed to `find_header_row`, rows in order. -/
abbrev Table := List Row

/-- The `header_row` list comprehension of lines 55-58. -/
def normalizeRow (r : Row) : List Cell :=
  r.map normCell

/-- `header.strip().lower()` applied to a canonical field name (lines 62, 77):
note there is no newline replacement here, unlike cell normalisation. -/
def normHeader (h : String) : String :=
  pyLower (pyStrip h)

/-- Python dict assignment `d[k] = v`: update in place if the key exists,
else append, preserving insertion order. -/
def dictInsert (d : List (String × Nat)) (k : String) (v : Nat) : List (String × Nat) :=
  match d with
  | [] => [(k, v)]
  | (k2, v2) :: rest => if k2 = k then (k, v) :: rest else (k2, v2) :: dictInsert rest k v

/-- Python dict lookup `d.get(k)` on the association list. -/
def dictFind (d : List (String × Nat)) (k : String) : Option Nat :=
  match d with
  | [] => none
  | (k2, v2) :: rest => if k2 = k then some v2 else dictFind rest k

/-- Python `k in d` key-membership test. -/
def dictContains (d : List (String × Nat)) (k : String) : Bool :=
  (dictFind d k).isSome

/-- Python `list.remove(x)`: drop the first occurrence of `x` (total: on a
list without `x` it is the identity; the source guards the call with
`if header in missing_required_headers`). -/
def listRemove (l : List String) (x : String) : List String :=
  match l with
  | [] => []
  | y :: rest => if y = x then rest else y :: listRemove rest x

/-- Python `list.index(x)`: position of the first occurrence (only invoked
by the source when `x` is present; returns the length when absent). -/
def pyIndex (l : List Cell) (x : String) : Nat :=
  match l with
  | [] => 0
  | c :: rest => if c = some x then 0 else pyIndex rest x + 1

/-- Lines 68-69 / 81-82: `next(alias.lower() for alias in aliases if
alias.lower() in header_row)`, returning `none` when the guarding `any` is
false.  Aliases are only lowercased, never stripped. -/
def aliasFirstMatch (aliases : List String) (row : List Cell) : Option String :=
  match aliases with
  | [] => none
  | a :: rest =>
    if row.contains (some (pyLower a)) then some (pyLower a) else aliasFirstMatch rest row

/-- The `headers` dictionary of the constructor: `required` and `optional`
map field names to alias lists, both in declaration (insertion) order. -/
structure Schema where
  required : List (String × List String)
  optional : List (String × List String)
deriving DecidableEq

/-- The mutable scan state of `find_header_row`: `collected_headers`,
`missing_required_headers` and `last_match_row`. -/
structure ScanState where
  collected : List (String × Nat)
  missing : List String
  lastMatchRow : Option Nat
deriving DecidableEq

/-- Lines 61-73: processing of one required field `(h, al)` against a
normalised row.  The canonical branch requires the field not yet collected;
the alias branch (the bare `elif`) has no such guard. -/
def stepRequired (row : List Cell) (i : Nat) (st : ScanState) (h : String)
    (al : List String) : ScanState :=
  if row.contains (some (normHeader h)) && !(dictContains st.collected h) then
    { collected := dictInsert st.collected h (pyIndex row (normHeader h))
      missing := if st.missing.contains h then listRemove st.missing h else st.missing
      lastMatchRow := some i }
  else
    match aliasFirstMatch al row with
    | some a =>
      { collected := dictInsert st.collected h (pyIndex row a)
        missing := if st.missing.contains h then listRemove st.missing h else st.missing
        lastMatchRow := some i }
    | none => st

/-- Lines 76-84: processing of one optional field, identical to the
required case except that `missing_required_headers` is never touched. -/
def stepOptional (row : List Cell) (i : Nat) (st : ScanState) (h : String)
    (al : List String) : ScanState :=
  if row.contains (some (normHeader h)) && !(dictContains st.collected h) then
    { collected := dictInsert st.collected h (pyIndex row (normHeader h))
      missing := st.missing
      lastMatchRow := some i }
  else
    match aliasFirstMatch al row with
    | some a =>
      { collected := dictInsert st.collected h (pyIndex row a)
        missing := st.missing
        lastMatchRow := some i }
    | none => st

/-- The `for header, aliases in self.required_headers.items()` loop. -/
def stepFieldsReq (row : List Cell) (i : Nat) :
    ScanState → List (String × List String) → ScanState
  | st, [] => st
  | st, (h, al) :: rest => stepFieldsReq row i (stepRequired row i st h al) rest

/-- The `for header, aliases in self.optional_headers.items()` loop. -/
def stepFieldsOpt (row : List Cell) (i : Nat) :
    ScanState → List (String × List String) → ScanState
  | st, [] => st
  | st, (h, al) :: rest => stepFieldsOpt row i (stepOptional row i st h al) rest

/-- One iteration of the row loop (lines 54-84): normalise the row, run the
required loop, then the optional loop. -/
def stepRow (s : Schema) (i : Nat) (st : ScanState) (r : Row) : ScanState :=
  stepFieldsOpt (normalizeRow r) i
    (stepFieldsReq (normalizeRow r) i st s.required) s.optional

/-- Lines 50-52: initial scan state. -/
def initState (s : Schema) : ScanState :=
  { collected := [], missing := s.required.map Prod.fst, lastMatchRow := none }

/-- The row loop itself, with `i` the positional row index (the dataframe
produced by `pd.read_csv(..., header=None)` carries a 0-based range index). -/
def scanAux (s : Schema) : Nat → ScanState → Table → ScanState
  | _, st, [] => st
  | i, st, r :: rs => scanAux s (i + 1) (stepRow s i st r) rs

/-- Lines 50-88: scan `dataframe.head(max_rows)`. -/
def scanRows (s : Schema) (maxRows : Nat) (t : Table) : ScanState :=
  scanAux s 0 (initState s) (t.take maxRows)

/-- Line 94: `collected_headers.keys() & self.required_headers.keys()` is
non-empty, i.e. some required key was collected. -/
def requiredOverlap (c : List (String × Nat)) (req : List (String × List String)) : Bool :=
  req.any (fun p => dictContains c p.1)

/-- Lines 97-98: `{key: collected[key] for key in fields if key in collected}`. -/
def restrictTo (c : List (String × Nat)) (fields : List (String × List String)) :
    List (String × Nat) :=
  fields.filterMap (fun p => (dictFind c p.1).map (fun v => (p.1, v)))

/-- The 4-tuple returned by `find_header_row`. -/
structure FindResult where
  headerStartRow : Option Nat
  requiredIndices : List (String × Nat)
  missingRequired : List String
  optionalIndices : List (String × Nat)
deriving DecidableEq

/-- Lines 40-100: `CSVParser.find_header_row`. -/
def find_header_row (s : Schema) (maxRows : Nat) (t : Table) : FindResult :=
  let st := scanRows s maxRows t
  if requiredOverlap st.collected s.required then
    { headerStartRow := st.lastMatchRow.map (fun j => j + 1)
      requiredIndices := restrictTo st.collected s.required
      missingRequired := st.missing
      optionalIndices := restrictTo st.collected s.optional }
  else
    { headerStartRow := none
      requiredIndices := []
      missingRequired := st.missing
      optionalIndices := [] }

/-- Outcome of `parse_csv` once the file has been read into a table: either
the error dict of line 117 (carrying the missing required names) or the
success dict of lines 119-123. -/
inductive ParseResult where
  | error (missing : List String)
  | ok (headerStartRow : Option Nat) (requiredIndices : List (String × Nat))
      (optionalIndices : List (String × Nat))
deriving DecidableEq

/-- Lines 102-123: `CSVParser.parse_csv`, with the file already loaded as a
table (the reader itself is out of scope). -/
def parse_csv (s : Schema) (maxRows : Nat) (t : Table) : ParseResult :=
  let r := find_header_row s maxRows t
  if r.missingRequired.length > 0 then ParseResult.error r.missingRequired
  else ParseResult.ok r.headerStartRow r.requiredIndices r.optionalIndices

/-- Spec-side predicate (§4.1 step 3 / claim C4's "contributed any match"):
the normalised row contains the field's canonical name or one of its
lowercased aliases. -/
def fieldNameInRow (p : String × List String) (nr : List Cell) : Bool :=
  nr.contains (some (normHeader p.1)) || p.2.any (fun a => nr.contains (some (pyLower a)))

/-- Spec-side predicate: some declared field (required or optional) has its
canonical name or an alias in the row. -/
def rowHasName (s : Schema) (r : Row) : Bool :=
  (s.required ++ s.optional).any (fun p => fieldNameInRow p (normalizeRow r))

/-- Spec-side predicate: some required field has its canonical name or an
alias in the row. -/
def requiredNameInRow (s : Schema) (r : Row) : Bool :=
  s.required.any (fun p => fieldNameInRow p (normalizeRow r))

/-! ### Helper lemmas about the dictionary and list primitives -/

theorem dictFind_insert_self (d : List (String × Nat)) (k : String) (v : Nat) :
    dictFind (dictInsert d k v) k = some v := by
  induction d with
  | nil => simp [dictInsert, dictFind]
  | cons p rest ih =>
    obtain ⟨k2, v2⟩ := p
    by_cases hk : k2 = k <;> simp [dictInsert, dictFind, hk, ih]

theorem dictFind_insert_ne (d : List (String × Nat)) (k k2 : String) (v : Nat)
    (h : k2 ≠ k) : dictFind (dictInsert d k v) k2 = dictFind d k2 := by
  induction d with
  | nil => simp [dictInsert, dictFind, Ne.symm h]
  | cons p rest ih =>
    obtain ⟨k3, v3⟩ := p
    by_cases hk : k3 = k
    · subst hk
      simp [dictInsert, dictFind, Ne.symm h]
    · simp [dictInsert, dictFind, hk, ih]

theorem dictContains_insert_ne (d : List (String × Nat)) (k k2 : String) (v : Nat)
    (h : k2 ≠ k) : dictContains (dictInsert d k v) k2 = dictContains d k2 := by
  simp [dictContains, dictFind_insert_ne d k k2 v h]

theorem listRemove_not_mem (l : List String) (x : String) (h : x ∉ l) :
    listRemove l x = l := by
  induction l with
  | nil => rfl
  | cons y rest ih =>
    have hyx : y ≠ x := fun hh => h (hh ▸ List.mem_cons_self y rest)
    have hxr : x ∉ rest := fun hh => h (List.mem_cons_of_mem y hh)
    simp [listRemove, hyx, ih hxr]

theorem aliasFirstMatch_eq_none (al : List String) (row : List Cell)
    (h : ∀ a ∈ al, (some (pyLower a)) ∉ row) :
    aliasFirstMatch al row = none := by
  induction al with
  | nil => rfl
  | cons a rest ih =>
    have ha := h a (List.mem_cons_self a rest)
    simp [aliasFirstMatch, ha]
    exact ih (fun b hb => h b (List.mem_cons_of_mem a hb))

theorem aliasFirstMatch_append (al1 al2 : List String) (a : String) (row : List Cell)
    (h1 : ∀ b ∈ al1, (some (pyLower b)) ∉ row)
    (h2 : (some (pyLower a)) ∈ row) :
    aliasFirstMatch (al1 ++ a :: al2) row = some (pyLower a) := by
  induction al1 with
  | nil => simp [aliasFirstMatch, h2]
  | cons b rest ih =>
    have hb := h1 b (List.mem_cons_self b rest)
    simp [aliasFirstMatch, hb]
    exact ih (fun x hx => h1 x (List.mem_cons_of_mem b hx))

theorem pyIndex_get (l : List Cell) (x : String) (hx : (some x) ∈ l) :
    l[pyIndex l x]? = some (some x) := by
  induction l with
  | nil => simp at hx
  | cons c rest ih =>
    by_cases hc : c = some x
    · simp [pyIndex, hc]
    · have hr : (some x) ∈ rest := by
        rcases List.mem_cons.mp hx with hx2 | hx2
        · exact absurd hx2.symm hc
        · exact hx2
      simp [pyIndex, hc, ih hr]

theorem pyIndex_min (l : List Cell) (x : String) (j : Nat) (hj : j < pyIndex l x) :
    l[j]? ≠ some (some x) := by
  induction l generalizing j with
  | nil => simp
  | cons c rest ih =>
    by_cases hc : c = some x
    · simp [pyIndex, hc] at hj
    · cases j with
      | zero => simpa using fun hh => hc hh
      | succ j2 =>
        simp only [pyIndex, hc, if_false] at hj
        have hj2 : j2 < pyIndex rest x := by omega
        simpa using ih j2 hj2

theorem contains_iff_exists (r : Row) (x : String) :
    (normalizeRow r).contains (some x) = true ↔ ∃ s, (some s) ∈ r ∧ normCellStr s = x := by
  rw [show ((normalizeRow r).contains (some x) = true) ↔ (some x) ∈ normalizeRow r from
    ⟨fun h => by simpa [List.contains] using List.elem_iff.mp (by simpa [List.contains] using h),
     fun h => by simpa [List.contains] using List.elem_iff.mpr h⟩]
  simp only [normalizeRow, List.mem_map]
  constructor
  · rintro ⟨c, hc, hcx⟩
    cases c with
    | none => simp [normCell] at hcx
    | some s =>
      refine ⟨s, hc, ?_⟩
      simpa [normCell] using hcx
  · rintro ⟨s, hs, hsx⟩
    exact ⟨some s, hs, by simp [normCell, hsx]⟩

theorem stepOptional_missing (row : List Cell) (i : Nat) (st : ScanState)
    (h : String) (al : List String) :
    (stepOptional row i st h al).missing = st.missing := by
  simp only [stepOptional]
  split
  · rfl
  · split <;> rfl

theorem stepFieldsOpt_missing (row : List Cell) (i : Nat) :
    ∀ (fields : List (String × List String)) (st : ScanState),
      (stepFieldsOpt row i st fields).missing = st.missing := by
  intro fields
  induction fields with
  | nil => intro st; rfl
  | cons p rest ih =>
    intro st
    obtain ⟨h, al⟩ := p
    rw [stepFieldsOpt, ih, stepOptional_missing]

theorem scanAux_missing_empty_required (opt : List (String × List String)) :
    ∀ (rows : Table) (i : Nat) (st : ScanState),
      (scanAux ⟨[], opt⟩ i st rows).missing = st.missing := by
  intro rows
  induction rows with
  | nil => intro i st; rfl
  | cons r rs ih =>
    intro i st
    rw [scanAux, ih]
    exact stepFieldsOpt_missing (normalizeRow r) i opt st

theorem fieldNameInRow_false (p : String × List String) (nr : List Cell)
    (h : fieldNameInRow p nr = false) :
    (some (normHeader p.1)) ∉ nr ∧ ∀ a ∈ p.2, (some (pyLower a)) ∉ nr := by
  simpa [fieldNameInRow] using h

theorem stepRequired_id_of_no_name (row : List Cell) (i : Nat) (st : ScanState)
    (h : String) (al : List String)
    (hn : fieldNameInRow (h, al) row = false) :
    stepRequired row i st h al = st := by
  obtain ⟨hcanon, hal⟩ := fieldNameInRow_false (h, al) row hn
  have hfm := aliasFirstMatch_eq_none al row hal
  simp [stepRequired, hcanon, hfm]

theorem stepOptional_id_of_no_name (row : List Cell) (i : Nat) (st : ScanState)
    (h : String) (al : List String)
    (hn : fieldNameInRow (h, al) row = false) :
    stepOptional row i st h al = st := by
  obtain ⟨hcanon, hal⟩ := fieldNameInRow_false (h, al) row hn
  have hfm := aliasFirstMatch_eq_none al row hal
  simp [stepOptional, hcanon, hfm]

theorem stepFieldsReq_id (row : List Cell) (i : Nat) :
    ∀ (fields : List (String × List String)) (st : ScanState),
      (∀ p ∈ fields, fieldNameInRow p row = false) →
      stepFieldsReq row i st fields = st := by
  intro fields
  induction fields with
  | nil => intro st _; rfl
  | cons p rest ih =>
    intro st hall
    obtain ⟨h, al⟩ := p
    rw [stepFieldsReq,
      stepRequired_id_of_no_name row i st h al (hall (h, al) (List.mem_cons_self _ _))]
    exact ih st (fun q hq => hall q (List.mem_cons_of_mem _ hq))

theorem stepFieldsOpt_id (row : List Cell) (i : Nat) :
    ∀ (fields : List (String × List String)) (st : ScanState),
      (∀ p ∈ fields, fieldNameInRow p row = false) →
      stepFieldsOpt row i st fields = st := by
  intro fields
  induction fields with
  | nil => intro st _; rfl
  | cons p rest ih =>
    intro st hall
    obtain ⟨h, al⟩ := p
    rw [stepFieldsOpt,
      stepOptional_id_of_no_name row i st h al (hall (h, al) (List.mem_cons_self _ _))]
    exact ih st (fun q hq => hall q (List.mem_cons_of_mem _ hq))

theorem stepOptional_contains_ne (row : List Cell) (i : Nat) (st : ScanState)
    (h : String) (al : List String) (k : String) (hk : k ≠ h) :
    dictContains (stepOptional row i st h al).collected k
      = dictContains st.collected k := by
  simp only [stepOptional]
  split
  · simp [dictContains_insert_ne _ _ _ _ hk]
  · split
    · simp [dictContains_insert_ne _ _ _ _ hk]
    · rfl

theorem stepFieldsOpt_contains (row : List Cell) (i : Nat) (k : String) :
    ∀ (fields : List (String × List String)) (st : ScanState),
      (∀ p ∈ fields, p.1 ≠ k) →
      dictContains (stepFieldsOpt row i st fields).collected k
        = dictContains st.collected k := by
  intro fields
  induction fields with
  | nil => intro st _; rfl
  | cons p rest ih =>
    intro st hall
    obtain ⟨h, al⟩ := p
    rw [stepFieldsOpt, ih _ (fun q hq => hall q (List.mem_cons_of_mem _ hq)),
      stepOptional_contains_ne row i st h al k
        (Ne.symm (hall (h, al) (List.mem_cons_self _ _)))]

theorem scanAux_zero_required (s : Schema)
    (hdis : ∀ p ∈ s.optional, p.1 ∉ s.required.map Prod.fst) :
    ∀ (rows : Table) (i : Nat) (st : ScanState),
      (∀ r ∈ rows, requiredNameInRow s r = false) →
      (∀ h ∈ s.required.map Prod.fst, dictContains st.collected h = false) →
      (scanAux s i st rows).missing = st.missing ∧
      (∀ h ∈ s.required.map Prod.fst,
        dictContains (scanAux s i st rows).collected h = false) := by
  intro rows
  induction rows with
  | nil => intro i st _ hcon; exact ⟨rfl, hcon⟩
  | cons r rs ih =>
    intro i st hall hcon
    have hreq : ∀ p ∈ s.required, fieldNameInRow p (normalizeRow r) = false := by
      have hr := hall r (List.mem_cons_self _ _)
      simpa [requiredNameInRow] using hr
    have hstep : stepRow s i st r = stepFieldsOpt (normalizeRow r) i st s.optional := by
      rw [stepRow, stepFieldsReq_id _ _ _ _ hreq]
    have hcon2 : ∀ h ∈ s.required.map Prod.fst,
        dictContains (stepRow s i st r).collected h = false := by
      intro h hh
      rw [hstep, stepFieldsOpt_contains _ _ _ s.optional st
        (fun p hp he => hdis p hp (he ▸ hh))]
      exact hcon h hh
    have hmiss2 : (stepRow s i st r).missing = st.missing := by
      rw [hstep]; exact stepFieldsOpt_missing _ _ _ _
    rw [scanAux]
    obtain ⟨h1, h2⟩ := ih (i + 1) (stepRow s i st r)
      (fun r2 hr2 => hall r2 (List.mem_cons_of_mem _ hr2)) hcon2
    exact ⟨h1.trans hmiss2, h2⟩

theorem listRemove_filter (l : List String) (p : String → Bool) (k : String)
    (hnd : l.Nodup) :
    listRemove (l.filter p) k = l.filter (fun x => p x && !(x == k)) := by
  induction l with
  | nil => rfl
  | cons y rest ih =>
    obtain ⟨hy, hrest⟩ := List.nodup_cons.mp hnd
    by_cases hyk : y = k
    · subst hyk
      have hcongr : rest.filter (fun x => p x && !(x == y)) = rest.filter p := by
        apply List.filter_congr
        intro x hx
        have hxy : x ≠ y := fun he => hy (he ▸ hx)
        simp [hxy]
      by_cases hp : p y
      · simp [List.filter_cons, hp, listRemove, hcongr]
      · have hnotin : y ∉ rest.filter p := fun hmem => hy (List.mem_of_mem_filter hmem)
        simp [List.filter_cons, hp, hcongr, listRemove_not_mem _ _ hnotin]
    · by_cases hp : p y
      · simp [List.filter_cons, hp, listRemove, hyk, ih hrest]
      · simp [List.filter_cons, hp, hyk, ih hrest]

theorem missing_update_eq (reqNames : List String) (hnd : reqNames.Nodup)
    (c : List (String × Nat)) (miss : List String) (h : String) (v : Nat)
    (hinv : miss = reqNames.filter (fun x => !(dictContains c x))) :
    (if miss.contains h then listRemove miss h else miss)
      = reqNames.filter (fun x => !(dictContains (dictInsert c h v) x)) := by
  have hup : (if miss.contains h then listRemove miss h else miss)
      = listRemove miss h := by
    by_cases hm : h ∈ miss
    · simp [hm]
    · simp [hm, listRemove_not_mem _ _ hm]
  rw [hup, hinv, listRemove_filter _ _ _ hnd]
  apply List.filter_congr
  intro x hx
  by_cases hxh : x = h
  · subst hxh
    simp [dictContains, dictFind_insert_self]
  · simp [dictContains, dictFind_insert_ne c h x v hxh, hxh]

/-- The invariant maintained for claim C5: `missing_required_headers` is
exactly the declaration-order list of required names not yet collected. -/
def MissingInv (reqNames : List String) (st : ScanState) : Prop :=
  st.missing = reqNames.filter (fun x => !(dictContains st.collected x))

theorem stepRequired_missing_inv (reqNames : List String) (hnd : reqNames.Nodup)
    (row : List Cell) (i : Nat) (st : ScanState) (h : String) (al : List String)
    (hinv : MissingInv reqNames st) :
    MissingInv reqNames (stepRequired row i st h al) := by
  rw [MissingInv] at hinv ⊢
  simp only [stepRequired]
  split
  · exact missing_update_eq reqNames hnd _ _ h _ hinv
  · split
    · exact missing_update_eq reqNames hnd _ _ h _ hinv
    · exact hinv

theorem stepOptional_missing_inv (reqNames : List String)
    (row : List Cell) (i : Nat) (st : ScanState) (h : String) (al : List String)
    (hh : h ∉ reqNames)
    (hinv : MissingInv reqNames st) :
    MissingInv reqNames (stepOptional row i st h al) := by
  rw [MissingInv] at hinv ⊢
  have hcongr : ∀ (v : Nat),
      reqNames.filter (fun x => !(dictContains (dictInsert st.collected h v) x))
        = reqNames.filter (fun x => !(dictContains st.collected x)) := by
    intro v
    apply List.filter_congr
    intro x hx
    have hxh : x ≠ h := fun he => hh (he ▸ hx)
    simp [dictContains, dictFind_insert_ne st.collected h x v hxh]
  simp only [stepOptional]
  split
  · simpa [hcongr] using hinv
  · split
    · simpa [hcongr] using hinv
    · exact hinv

theorem stepFieldsReq_missing_inv (reqNames : List String) (hnd : reqNames.Nodup)
    (row : List Cell) (i : Nat) :
    ∀ (fields : List (String × List String)) (st : ScanState),
      MissingInv reqNames st → MissingInv reqNames (stepFieldsReq row i st fields) := by
  intro fields
  induction fields with
  | nil => intro st hinv; exact hinv
  | cons p rest ih =>
    intro st hinv
    obtain ⟨h, al⟩ := p
    rw [stepFieldsReq]
    exact ih _ (stepRequired_missing_inv reqNames hnd row i st h al hinv)

theorem stepFieldsOpt_missing_inv (reqNames : List String)
    (row : List Cell) (i : Nat) :
    ∀ (fields : List (String × List String)) (st : ScanState),
      (∀ p ∈ fields, p.1 ∉ reqNames) →
      MissingInv reqNames st → MissingInv reqNames (stepFieldsOpt row i st fields) := by
  intro fields
  induction fields with
  | nil => intro st _ hinv; exact hinv
  | cons p rest ih =>
    intro st hall hinv
    obtain ⟨h, al⟩ := p
    rw [stepFieldsOpt]
    exact ih _ (fun q hq => hall q (List.mem_cons_of_mem _ hq))
      (stepOptional_missing_inv reqNames row i st h al
        (hall (h, al) (List.mem_cons_self _ _)) hinv)

theorem scanAux_missing_inv (s : Schema) (hnd : (s.required.map Prod.fst).Nodup)
    (hdis : ∀ p ∈ s.optional, p.1 ∉ s.required.map Prod.fst) :
    ∀ (rows : Table) (i : Nat) (st : ScanState),
      MissingInv (s.required.map Prod.fst) st →
      MissingInv (s.required.map Prod.fst) (scanAux s i st rows) := by
  intro rows
  induction rows with
  | nil => intro i st hinv; exact hinv
  | cons r rs ih =>
    intro i st hinv
    rw [scanAux]
    exact ih (i + 1) _ (stepFieldsOpt_missing_inv _ _ _ _ _ hdis
      (stepFieldsReq_missing_inv _ hnd _ _ _ _ hinv))

/-! ### Claim C1 -/

/-- Claim C1 is false as stated: with required field `price` (alias `cost`),
scanning the single row `["price"]` records column 0 for `price`, but
adding the later row `["x", "cost"]` changes the recorded index to 1 — the
alias branch of lines 68-73 carries no `header not in collected_headers`
guard, so a later row bearing an alias overwrites the earlier match. -/
theorem c1_counterexample :
    (find_header_row ⟨[("price", ["cost"])], []⟩ 5 [[some "price"]]).requiredIndices
      = [("price", 0)] ∧
    (find_header_row ⟨[("price", ["cost"])], []⟩ 5
        [[some "price"], [some "x", some "cost"]]).requiredIndices
      = [("price", 1)] :=
  ⟨rfl, rfl⟩

/-- Claim C1 amended: once a field is collected, a later row never changes
its recorded index through the canonical-name branch, and a row containing
none of its lowercased aliases leaves the index unchanged; but a row that
does contain an alias overwrites the index with the position of the first
declared alias present in that row.  Holds for required and optional
fields alike. -/
theorem c1_no_overwrite_amended (row : List Cell) (i : Nat) (st : ScanState)
    (h : String) (al : List String) (hc : dictContains st.collected h = true) :
    dictFind (stepRequired row i st h al).collected h
        = (match aliasFirstMatch al row with
           | none => dictFind st.collected h
           | some a => some (pyIndex row a)) ∧
    dictFind (stepOptional row i st h al).collected h
        = (match aliasFirstMatch al row with
           | none => dictFind st.collected h
           | some a => some (pyIndex row a)) := by
  constructor <;>
  · cases hm : aliasFirstMatch al row with
    | none => simp [stepRequired, stepOptional, hc, hm]
    | some a => simp [stepRequired, stepOptional, hc, hm, dictFind_insert_self]

/-- Witness for the amended C1 at a concrete input: with `price` already
collected at column 0, the row `["x", "cost"]` overwrites the index to 1. -/
theorem c1_no_overwrite_amended_witness :
    dictFind (stepRequired [some "x", some "cost"] 1
        ⟨[("price", 0)], [], some 0⟩ "price" ["cost"]).collected "price" = some 1 :=
  ((c1_no_overwrite_amended [some "x", some "cost"] 1
      ⟨[("price", 0)], [], some 0⟩ "price" ["cost"] (by decide)).1).trans (by decide)

/-! ### Claim C2 -/

/-- Claim C2 is false as stated: the alias `" cost "` and the cell
`" Cost "` bear the same normalized text `"cost"`, yet the cell does not
match the alias — cells are stripped, lowercased and newline-replaced
(line 56) while aliases are only lowercased (lines 68-69), so resolution
fails with `Price` reported missing. -/
theorem c2_counterexample :
    normCellStr " cost " = normCellStr " Cost " ∧
    parse_csv ⟨[("Price", [" cost "])], []⟩ 5 [[some " Cost "]]
      = ParseResult.error ["Price"] :=
  ⟨rfl, rfl⟩

/-- Claim C2 amended: cells are normalized by strip, lowercase and
newline-to-space; canonical names only by strip and lowercase; aliases only
by lowercase.  A cell matches under the code exactly as it matches under
identical normalization whenever the alias is unchanged by stripping and
its lowercase form contains no newline, and whenever the canonical name's
stripped-lowercased form contains no newline. -/
theorem c2_normalization_amended (r : Row) (a hname : String)
    (h1 : pyStrip a = a) (h2 : pyReplaceNewline (pyLower a) = pyLower a)
    (h3 : pyReplaceNewline (normHeader hname) = normHeader hname) :
    (normalizeRow r).contains (some (pyLower a))
        = (normalizeRow r).contains (some (normCellStr a)) ∧
    (normalizeRow r).contains (some (normHeader hname))
        = (normalizeRow r).contains (some (normCellStr hname)) := by
  constructor
  · have ha : normCellStr a = pyLower a := by
      rw [normCellStr, h1, h2]
    rw [ha]
  · have hh : normCellStr hname = normHeader hname := by
      rw [normCellStr, show pyLower (pyStrip hname) = normHeader hname from rfl, h3]
    rw [hh]

/-- Witness for the amended C2 at a concrete input: the trimmed,
newline-free alias `"cost"` and canonical name `"Price"` match the row
`[" Cost\n ", "PRICE"]` exactly as under identical normalization. -/
theorem c2_normalization_amended_witness :
    (normalizeRow [some " Cost\n ", some "PRICE"]).contains (some (pyLower "cost"))
        = (normalizeRow [some " Cost\n ", some "PRICE"]).contains (some (normCellStr "cost")) ∧
    (normalizeRow [some " Cost\n ", some "PRICE"]).contains (some (normHeader "Price"))
        = (normalizeRow [some " Cost\n ", some "PRICE"]).contains (some (normCellStr "Price")) :=
  c2_normalization_amended [some " Cost\n ", some "PRICE"] "cost" "Price"
    (by decide) (by decide) (by decide)

/-! ### Claim C3 -/

/-- Claim C3 is false as stated: with an empty required set and optional
field `Notes`, the row `["notes"]` does match (the scan records
`last_match_row = 0`), yet the returned result has `dataStartRow = None`
and no optional index — line 94's zero-overlap check
`collected_headers.keys() & required_headers.keys()` is vacuously empty
whenever the required set is empty, so the early return always fires. -/
theorem c3_counterexample :
    (scanRows ⟨[], [("Notes", [])]⟩ 5 [[some "notes"]]).lastMatchRow = some 0 ∧
    parse_csv ⟨[], [("Notes", [])]⟩ 5 [[some "notes"]]
      = ParseResult.ok none [] [] :=
  ⟨rfl, rfl⟩

/-- Claim C3 amended: with an empty required set, `parse_csv` always
succeeds (no error), but the result is invariably `dataStartRow = None`
with empty required and optional column maps, regardless of any optional
matches inside the scan window. -/
theorem c3_empty_required_amended (opt : List (String × List String))
    (m : Nat) (t : Table) :
    parse_csv ⟨[], opt⟩ m t = ParseResult.ok none [] [] := by
  have hmiss : (scanRows ⟨[], opt⟩ m t).missing = [] :=
    scanAux_missing_empty_required opt (t.take m) 0 (initState ⟨[], opt⟩)
  simp [parse_csv, find_header_row, requiredOverlap, hmiss]

/-! ### Claim C7 -/

/-- Claim C7 is false as stated: a present cell `"  "` normalizes to the
empty string (not to the absent marker), so against the schema declaring
the empty string as an alias of `x` it does contribute a recorded column
index — resolution succeeds with `x` at column 0. -/
theorem c7_counterexample :
    normCellStr "  " = "" ∧
    parse_csv ⟨[("x", [""])], []⟩ 5 [[some "  "]]
      = ParseResult.ok (some 1) [("x", 0)] [] :=
  ⟨rfl, rfl⟩

/-- Claim C7 amended: null/absent cells are mapped to `none` and can never
match, since every membership test during resolution looks for a present
value: a normalized row contains a present value `x` exactly when some
present cell of the original row normalizes to `x`.  A present cell whose
content normalizes to the empty string is kept as the empty string, so it
does match a canonical name or alias normalizing to the empty string. -/
theorem c7_absent_cells_amended (r : Row) (x : String) :
    (normalizeRow r).contains (some x) = true
      ↔ ∃ s, (some s) ∈ r ∧ normCellStr s = x :=
  contains_iff_exists r x

/-- Witness for the amended C7 at a concrete input: the row
`[none, some "  "]` has its normalization containing `some ""` exactly
because the present cell `"  "` normalizes to the empty string. -/
theorem c7_absent_cells_amended_witness :
    (normalizeRow [none, some "  "]).contains (some "") = true
      ↔ ∃ s, (some s) ∈ ([none, some "  "] : Row) ∧ normCellStr s = "" :=
  c7_absent_cells_amended [none, some "  "] ""

theorem find_missingRequired (s : Schema) (m : Nat) (t : Table) :
    (find_header_row s m t).missingRequired = (scanRows s m t).missing := by
  by_cases hov : requiredOverlap (scanRows s m t).collected s.required
  · simp [find_header_row, hov]
  · simp [find_header_row, hov]

theorem stepRequired_last_isSome (row : List Cell) (i : Nat) (st : ScanState)
    (h : String) (al : List String) (hs : st.lastMatchRow.isSome = true) :
    (stepRequired row i st h al).lastMatchRow.isSome = true := by
  simp only [stepRequired]
  split
  · rfl
  · split
    · rfl
    · exact hs

theorem stepOptional_last_isSome (row : List Cell) (i : Nat) (st : ScanState)
    (h : String) (al : List String) (hs : st.lastMatchRow.isSome = true) :
    (stepOptional row i st h al).lastMatchRow.isSome = true := by
  simp only [stepOptional]
  split
  · rfl
  · split
    · rfl
    · exact hs

theorem stepFieldsReq_last_isSome (row : List Cell) (i : Nat) :
    ∀ (fields : List (String × List String)) (st : ScanState),
      st.lastMatchRow.isSome = true →
      (stepFieldsReq row i st fields).lastMatchRow.isSome = true := by
  intro fields
  induction fields with
  | nil => intro st hs; exact hs
  | cons p rest ih =>
    intro st hs
    obtain ⟨h, al⟩ := p
    rw [stepFieldsReq]
    exact ih _ (stepRequired_last_isSome row i st h al hs)

theorem stepFieldsOpt_last_isSome (row : List Cell) (i : Nat) :
    ∀ (fields : List (String × List String)) (st : ScanState),
      st.lastMatchRow.isSome = true →
      (stepFieldsOpt row i st fields).lastMatchRow.isSome = true := by
  intro fields
  induction fields with
  | nil => intro st hs; exact hs
  | cons p rest ih =>
    intro st hs
    obtain ⟨h, al⟩ := p
    rw [stepFieldsOpt]
    exact ih _ (stepOptional_last_isSome row i st h al hs)

theorem scanAux_last_isSome (s : Schema) :
    ∀ (rows : Table) (i : Nat) (st : ScanState),
      st.lastMatchRow.isSome = true →
      (scanAux s i st rows).lastMatchRow.isSome = true := by
  intro rows
  induction rows with
  | nil => intro i st hs; exact hs
  | cons r rs ih =>
    intro i st hs
    rw [scanAux]
    exact ih (i + 1) _ (stepFieldsOpt_last_isSome _ _ s.optional _
      (stepFieldsReq_last_isSome _ _ s.required st hs))

theorem aliasFirstMatch_isSome (al : List String) (row : List Cell)
    (h : ∃ a ∈ al, (some (pyLower a)) ∈ row) :
    ∃ b, aliasFirstMatch al row = some b := by
  induction al with
  | nil => simp at h
  | cons a rest ih =>
    by_cases hmem : (some (pyLower a)) ∈ row
    · exact ⟨pyLower a, by simp [aliasFirstMatch, hmem]⟩
    · rcases h with ⟨c, hc, hcm⟩
      rcases List.mem_cons.mp hc with rfl | hc2
      · exact absurd hcm hmem
      · obtain ⟨b, hb⟩ := ih ⟨c, hc2, hcm⟩
        exact ⟨b, by simp [aliasFirstMatch, hmem, hb]⟩

theorem stepRequired_fire (row : List Cell) (i : Nat) (st : ScanState)
    (h : String) (al : List String) (hc : st.collected = [])
    (hn : fieldNameInRow (h, al) row = true) :
    (stepRequired row i st h al).lastMatchRow = some i := by
  have hcon : dictContains st.collected h = false := by rw [hc]; rfl
  simp only [fieldNameInRow, Bool.or_eq_true] at hn
  by_cases hcanon : (some (normHeader h)) ∈ row
  · simp [stepRequired, hcanon, hcon]
  · have hal : ∃ a ∈ al, (some (pyLower a)) ∈ row := by
      rcases hn with hn | hn
      · exact absurd (by simpa using hn) hcanon
      · simpa using hn
    obtain ⟨b, hb⟩ := aliasFirstMatch_isSome al row hal
    simp [stepRequired, hcanon, hb]

theorem stepOptional_fire (row : List Cell) (i : Nat) (st : ScanState)
    (h : String) (al : List String) (hc : st.collected = [])
    (hn : fieldNameInRow (h, al) row = true) :
    (stepOptional row i st h al).lastMatchRow = some i := by
  have hcon : dictContains st.collected h = false := by rw [hc]; rfl
  simp only [fieldNameInRow, Bool.or_eq_true] at hn
  by_cases hcanon : (some (normHeader h)) ∈ row
  · simp [stepOptional, hcanon, hcon]
  · have hal : ∃ a ∈ al, (some (pyLower a)) ∈ row := by
      rcases hn with hn | hn
      · exact absurd (by simpa using hn) hcanon
      · simpa using hn
    obtain ⟨b, hb⟩ := aliasFirstMatch_isSome al row hal
    simp [stepOptional, hcanon, hb]

theorem stepFieldsReq_fire (row : List Cell) (i : Nat) :
    ∀ (fields : List (String × List String)) (st : ScanState),
      st.collected = [] →
      (∃ p ∈ fields, fieldNameInRow p row = true) →
      (stepFieldsReq row i st fields).lastMatchRow.isSome = true := by
  intro fields
  induction fields with
  | nil => intro st _ hex; simp at hex
  | cons p rest ih =>
    intro st hc hex
    obtain ⟨h, al⟩ := p
    rw [stepFieldsReq]
    by_cases hn : fieldNameInRow (h, al) row = true
    · have hfire := stepRequired_fire row i st h al hc hn
      exact stepFieldsReq_last_isSome row i rest _ (by rw [hfire]; rfl)
    · have hn2 : fieldNameInRow (h, al) row = false := by
        cases hfn : fieldNameInRow (h, al) row
        · rfl
        · exact absurd hfn hn
      rw [stepRequired_id_of_no_name row i st h al hn2]
      rcases hex with ⟨q, hq, hqn⟩
      rcases List.mem_cons.mp hq with rfl | hq2
      · exact absurd hqn hn
      · exact ih st hc ⟨q, hq2, hqn⟩

theorem stepFieldsOpt_fire (row : List Cell) (i : Nat) :
    ∀ (fields : List (String × List String)) (st : ScanState),
      st.collected = [] →
      (∃ p ∈ fields, fieldNameInRow p row = true) →
      (stepFieldsOpt row i st fields).lastMatchRow.isSome = true := by
  intro fields
  induction fields with
  | nil => intro st _ hex; simp at hex
  | cons p rest ih =>
    intro st hc hex
    obtain ⟨h, al⟩ := p
    rw [stepFieldsOpt]
    by_cases hn : fieldNameInRow (h, al) row = true
    · have hfire := stepOptional_fire row i st h al hc hn
      exact stepFieldsOpt_last_isSome row i rest _ (by rw [hfire]; rfl)
    · have hn2 : fieldNameInRow (h, al) row = false := by
        cases hfn : fieldNameInRow (h, al) row
        · rfl
        · exact absurd hfn hn
      rw [stepOptional_id_of_no_name row i st h al hn2]
      rcases hex with ⟨q, hq, hqn⟩
      rcases List.mem_cons.mp hq with rfl | hq2
      · exact absurd hqn hn
      · exact ih st hc ⟨q, hq2, hqn⟩

theorem stepRow_fire (s : Schema) (i : Nat) (st : ScanState) (r : Row)
    (hc : st.collected = []) (hn : rowHasName s r = true) :
    (stepRow s i st r).lastMatchRow.isSome = true := by
  rw [rowHasName, List.any_eq_true] at hn
  obtain ⟨p, hp, hpn⟩ := hn
  rcases List.mem_append.mp hp with hpr | hpo
  · rw [stepRow]
    exact stepFieldsOpt_last_isSome _ _ s.optional _
      (stepFieldsReq_fire _ _ s.required st hc ⟨p, hpr, hpn⟩)
  · by_cases hreq : ∃ q ∈ s.required, fieldNameInRow q (normalizeRow r) = true
    · rw [stepRow]
      exact stepFieldsOpt_last_isSome _ _ s.optional _
        (stepFieldsReq_fire _ _ s.required st hc hreq)
    · have hallreq : ∀ q ∈ s.required, fieldNameInRow q (normalizeRow r) = false := by
        intro q hq
        cases hfq : fieldNameInRow q (normalizeRow r)
        · rfl
        · exact absurd ⟨q, hq, hfq⟩ hreq
      rw [stepRow, stepFieldsReq_id _ _ _ _ hallreq]
      exact stepFieldsOpt_fire _ _ s.optional st hc ⟨p, hpo, hpn⟩

theorem stepRow_id_of_no_name (s : Schema) (i : Nat) (st : ScanState) (r : Row)
    (hn : rowHasName s r = false) :
    stepRow s i st r = st := by
  rw [rowHasName, List.any_eq_false] at hn
  have hall : ∀ p ∈ s.required ++ s.optional,
      fieldNameInRow p (normalizeRow r) = false := by
    intro p hp
    cases hfp : fieldNameInRow p (normalizeRow r)
    · rfl
    · exact absurd hfp (hn p hp)
  rw [stepRow, stepFieldsReq_id _ _ _ _ (fun p hp => hall p (List.mem_append_left _ hp)),
    stepFieldsOpt_id _ _ _ _ (fun p hp => hall p (List.mem_append_right _ hp))]

theorem scanAux_none_iff (s : Schema) :
    ∀ (rows : Table) (i : Nat) (st : ScanState),
      st.collected = [] → st.lastMatchRow = none →
      ((scanAux s i st rows).lastMatchRow = none
        ↔ ∀ r ∈ rows, rowHasName s r = false) := by
  intro rows
  induction rows with
  | nil =>
    intro i st _ hl
    simp [scanAux, hl]
  | cons r rs ih =>
    intro i st hc hl
    by_cases hn : rowHasName s r = true
    · have hfire := stepRow_fire s i st r hc hn
      have hsome : (scanAux s (i + 1) (stepRow s i st r) rs).lastMatchRow.isSome = true :=
        scanAux_last_isSome s rs (i + 1) _ hfire
      rw [scanAux]
      constructor
      · intro h0
        rw [h0] at hsome
        simp at hsome
      · intro hall
        have hx := hall r (List.mem_cons_self _ _)
        rw [hx] at hn
        exact absurd hn (by simp)
    · have hn2 : rowHasName s r = false := by
        cases hfn : rowHasName s r
        · rfl
        · exact absurd hfn hn
      rw [scanAux, stepRow_id_of_no_name s i st r hn2, ih (i + 1) st hc hl]
      constructor
      · intro hall r2 hr2
        rcases List.mem_cons.mp hr2 with rfl | h2
        · exact hn2
        · exact hall r2 h2
      · intro hall r2 hr2
        exact hall r2 (List.mem_cons_of_mem _ hr2)

/-! ### Claim C4 -/

/-- Claim C4 is false as stated: with required `A` and optional `B`, the
single row `["b"]` produces a match (`last_match_row = 0`), yet the
returned `headerStartRow` is `None`, because the zero-required-overlap
early return of lines 94-95 discards the computed start row even though a
match occurred inside the window. -/
theorem c4_counterexample :
    (scanRows ⟨[("A", [])], [("B", [])]⟩ 1 [[some "b"]]).lastMatchRow = some 0 ∧
    (find_header_row ⟨[("A", [])], [("B", [])]⟩ 1 [[some "b"]]).headerStartRow
      = none :=
  ⟨rfl, rfl⟩

/-- Claim C4 amended: `last_match_row` is unset iff no row of the scan
window contains any declared canonical name or lowercased alias; when at
least one required field was collected, the returned `dataStartRow` is
`last_match_row + 1`; but on the zero-required-overlap path it is `None`
even if optional matches occurred in the window. -/
theorem c4_data_start_row_amended (s : Schema) (m : Nat) (t : Table) :
    ((scanRows s m t).lastMatchRow = none
      ↔ ∀ r ∈ t.take m, rowHasName s r = false) ∧
    (requiredOverlap (scanRows s m t).collected s.required = true →
      (find_header_row s m t).headerStartRow
        = (scanRows s m t).lastMatchRow.map (fun j => j + 1)) ∧
    (requiredOverlap (scanRows s m t).collected s.required = false →
      (find_header_row s m t).headerStartRow = none) := by
  refine ⟨scanAux_none_iff s (t.take m) 0 (initState s) rfl rfl, ?_, ?_⟩
  · intro hov
    simp [find_header_row, hov]
  · intro hov
    simp [find_header_row, hov]

/-- Witness for the amended C4 at a concrete input: scanning `[["price"]]`
for required `price`, the window has a matching row (so `lastMatchRow` is
not `none`) and the returned start row is `lastMatchRow + 1`. -/
theorem c4_data_start_row_amended_witness :
    ((scanRows ⟨[("price", [])], []⟩ 5 [[some "price"]]).lastMatchRow = none
      ↔ ∀ r ∈ ([[some "price"]] : Table).take 5,
          rowHasName ⟨[("price", [])], []⟩ r = false) ∧
    (find_header_row ⟨[("price", [])], []⟩ 5 [[some "price"]]).headerStartRow
      = (scanRows ⟨[("price", [])], []⟩ 5 [[some "price"]]).lastMatchRow.map
          (fun j => j + 1) :=
  ⟨(c4_data_start_row_amended ⟨[("price", [])], []⟩ 5 [[some "price"]]).1,
    (c4_data_start_row_amended ⟨[("price", [])], []⟩ 5 [[some "price"]]).2.1
      (by decide)⟩

/-! ### Claim C5 -/

/-- Claim C5 confirmed: for a schema with pairwise-distinct required names
that are not reused as optional names, `parse_csv` signals an error exactly
when some required field is not collected after the scan, the error lists
precisely the uncollected required names in schema declaration order, and
otherwise a success result is returned. -/
theorem c5_missing_required_exact (s : Schema) (m : Nat) (t : Table)
    (hnd : (s.required.map Prod.fst).Nodup)
    (hdis : ∀ p ∈ s.optional, p.1 ∉ s.required.map Prod.fst) :
    (scanRows s m t).missing
      = (s.required.map Prod.fst).filter
          (fun x => !(dictContains (scanRows s m t).collected x)) ∧
    ((s.required.map Prod.fst).filter
        (fun x => !(dictContains (scanRows s m t).collected x)) ≠ [] →
      parse_csv s m t
        = ParseResult.error ((s.required.map Prod.fst).filter
            (fun x => !(dictContains (scanRows s m t).collected x)))) ∧
    ((s.required.map Prod.fst).filter
        (fun x => !(dictContains (scanRows s m t).collected x)) = [] →
      ∃ d ri oi, parse_csv s m t = ParseResult.ok d ri oi) := by
  have hinit : MissingInv (s.required.map Prod.fst) (initState s) := by
    rw [MissingInv]
    exact (List.filter_eq_self.mpr (fun a _ => rfl)).symm
  have hmiss : (scanRows s m t).missing
      = (s.required.map Prod.fst).filter
          (fun x => !(dictContains (scanRows s m t).collected x)) :=
    scanAux_missing_inv s hnd hdis (t.take m) 0 (initState s) hinit
  refine ⟨hmiss, ?_, ?_⟩
  · intro hne
    have hm2 : (find_header_row s m t).missingRequired ≠ [] := by
      rw [find_missingRequired, hmiss]; exact hne
    have hlen : 0 < (find_header_row s m t).missingRequired.length :=
      List.length_pos.mpr hm2
    simp only [parse_csv]
    rw [if_pos hlen, find_missingRequired, hmiss]
  · intro heq
    have hm2 : (find_header_row s m t).missingRequired = [] := by
      rw [find_missingRequired, hmiss]; exact heq
    refine ⟨(find_header_row s m t).headerStartRow,
      (find_header_row s m t).requiredIndices,
      (find_header_row s m t).optionalIndices, ?_⟩
    simp only [parse_csv]
    rw [if_neg (by simp [hm2])]

/-- Witness for C5 at a concrete input (the spec's scenario 7): required
`Address` (no aliases) and `Price` (alias `cost`) against the single row
`["Street", "Cost"]` — `Price` matches via its alias, `Address` does not,
and the error lists exactly `["Address"]`. -/
theorem c5_missing_required_exact_witness :
    parse_csv ⟨[("Address", []), ("Price", ["cost"])], []⟩ 2
        [[some "Street", some "Cost"]]
      = ParseResult.error ["Address"] :=
  ((c5_missing_required_exact ⟨[("Address", []), ("Price", ["cost"])], []⟩ 2
      [[some "Street", some "Cost"]] (by decide) (by decide)).2.1
    (by decide)).trans (by decide)

/-! ### Claim C6 -/

/-- Claim C6 confirmed: with a non-empty required set whose schema does not
reuse a required name as an optional name, if no required field's canonical
name or alias (as normalized by the code) occurs in any row of the scan
window, `find_header_row` returns the zero-overlap result: `dataStartRow`
unset, no required or optional column indices, and all required field
names reported missing — regardless of optional matches present — and
`parse_csv` signals the error listing every required field name. -/
theorem c6_zero_overlap (s : Schema) (m : Nat) (t : Table)
    (hne : s.required ≠ [])
    (hdis : ∀ p ∈ s.optional, p.1 ∉ s.required.map Prod.fst)
    (hnone : ∀ r ∈ t.take m, requiredNameInRow s r = false) :
    find_header_row s m t
      = { headerStartRow := none, requiredIndices := [],
          missingRequired := s.required.map Prod.fst, optionalIndices := [] } ∧
    parse_csv s m t = ParseResult.error (s.required.map Prod.fst) := by
  obtain ⟨hmiss, hcon⟩ := scanAux_zero_required s hdis (t.take m) 0 (initState s) hnone
    (fun h _ => rfl)
  have hmiss2 : (scanRows s m t).missing = s.required.map Prod.fst := hmiss
  have hcon2 : ∀ h ∈ s.required.map Prod.fst,
      dictContains (scanRows s m t).collected h = false := hcon
  have hov : requiredOverlap (scanRows s m t).collected s.required = false := by
    rw [requiredOverlap, List.any_eq_false]
    intro p hp
    simp [hcon2 p.1 (List.mem_map_of_mem Prod.fst hp)]
  have hfind : find_header_row s m t
      = { headerStartRow := none, requiredIndices := [],
          missingRequired := s.required.map Prod.fst, optionalIndices := [] } := by
    simp [find_header_row, hov, hmiss2]
  refine ⟨hfind, ?_⟩
  have hlen : (s.required.map Prod.fst).length > 0 := by
    cases hreq : s.required with
    | nil => exact absurd hreq hne
    | cons a l => simp
  simp [parse_csv, hfind, hlen, hne]

/-- Witness for C6 at a concrete input: required `Address`/`Price` never
occur in the single scanned row, while optional `Notes` does match; the
result is still the zero-overlap error listing both required names. -/
theorem c6_zero_overlap_witness :
    find_header_row ⟨[("Address", []), ("Price", ["cost"])], [("Notes", [])]⟩ 1
        [[some "x", some "notes"]]
      = { headerStartRow := none, requiredIndices := [],
          missingRequired :=
            (([("Address", []), ("Price", ["cost"])] :
              List (String × List String)).map Prod.fst),
          optionalIndices := [] } ∧
    parse_csv ⟨[("Address", []), ("Price", ["cost"])], [("Notes", [])]⟩ 1
        [[some "x", some "notes"]]
      = ParseResult.error
          (([("Address", []), ("Price", ["cost"])] :
            List (String × List String)).map Prod.fst) :=
  c6_zero_overlap ⟨[("Address", []), ("Price", ["cost"])], [("Notes", [])]⟩ 1
    [[some "x", some "notes"]] (by decide) (by decide) (by decide)

/-! ### Claim C8 -/

/-- Claim C8 confirmed: for a field not yet collected whose canonical name
is present in the row, the recorded column index is that of the canonical
name (the first branch of lines 63-64 / 78-79 fires), regardless of any
aliases also present — for required and optional fields alike. -/
theorem c8_canonical_priority (row : List Cell) (i : Nat) (st : ScanState)
    (h : String) (al : List String)
    (hc : dictContains st.collected h = false)
    (hm : (some (normHeader h)) ∈ row) :
    dictFind (stepRequired row i st h al).collected h
        = some (pyIndex row (normHeader h)) ∧
    dictFind (stepOptional row i st h al).collected h
        = some (pyIndex row (normHeader h)) := by
  constructor <;> simp [stepRequired, stepOptional, hc, hm, dictFind_insert_self]

/-- Witness for C8 at a concrete input: the row `["cost", "price"]` with
field `price` (alias `cost`) records column 1, the canonical position. -/
theorem c8_canonical_priority_witness :
    dictFind (stepRequired [some "cost", some "price"] 0
        ⟨[], ["price"], none⟩ "price" ["cost"]).collected "price"
      = some (pyIndex [some "cost", some "price"] (normHeader "price")) ∧
    dictFind (stepOptional [some "cost", some "price"] 0
        ⟨[], ["price"], none⟩ "price" ["cost"]).collected "price"
      = some (pyIndex [some "cost", some "price"] (normHeader "price")) :=
  c8_canonical_priority [some "cost", some "price"] 0
    ⟨[], ["price"], none⟩ "price" ["cost"] (by decide) (by decide)

/-! ### Claim C9 -/

/-- Claim C9 confirmed: for a field not yet collected whose canonical name
is absent from the row, when several declared aliases appear in the row the
recorded column is that of the alias declared earliest in the schema's
alias order (the `next(...)` of lines 69 / 82 walks the alias list in
declaration order) — for required and optional fields alike. -/
theorem c9_first_alias_wins (row : List Cell) (i : Nat) (st : ScanState)
    (h : String) (al1 al2 : List String) (a : String)
    (_hc : dictContains st.collected h = false)
    (hcanon : (some (normHeader h)) ∉ row)
    (h1 : ∀ b ∈ al1, (some (pyLower b)) ∉ row)
    (h2 : (some (pyLower a)) ∈ row) :
    dictFind (stepRequired row i st h (al1 ++ a :: al2)).collected h
        = some (pyIndex row (pyLower a)) ∧
    dictFind (stepOptional row i st h (al1 ++ a :: al2)).collected h
        = some (pyIndex row (pyLower a)) := by
  have hfm := aliasFirstMatch_append al1 al2 a row h1 h2
  constructor <;> simp [stepRequired, stepOptional, hcanon, hfm, dictFind_insert_self]

/-- Witness for C9 at a concrete input: with aliases `["beds", "br"]` and a
row containing both `br` and `beds`, the earlier-declared `beds` (column 2)
is recorded, not `br` (column 0). -/
theorem c9_first_alias_wins_witness :
    dictFind (stepRequired [some "br", some "x", some "beds"] 0
        ⟨[], ["bedrooms"], none⟩ "bedrooms" ([] ++ "beds" :: ["br"])).collected "bedrooms"
      = some (pyIndex [some "br", some "x", some "beds"] (pyLower "beds")) ∧
    dictFind (stepOptional [some "br", some "x", some "beds"] 0
        ⟨[], ["bedrooms"], none⟩ "bedrooms" ([] ++ "beds" :: ["br"])).collected "bedrooms"
      = some (pyIndex [some "br", some "x", some "beds"] (pyLower "beds")) :=
  c9_first_alias_wins [some "br", some "x", some "beds"] 0
    ⟨[], ["bedrooms"], none⟩ "bedrooms" [] ["br"] "beds"
    (by decide) (by decide) (by decide) (by decide)

/-! ### Claim C10 -/

/-- Claim C10 confirmed: `list.index` returns the lowest column holding the
matched value — the recorded index points at the first occurrence and every
lower column differs from the matched name — and both the canonical and
alias branches of the required and optional loops record exactly that
`pyIndex` value. -/
theorem c10_lowest_column (row : List Cell) (i : Nat) (st : ScanState)
    (h : String) (al : List String) (x : String)
    (hc : dictContains st.collected h = false)
    (hx : (some x) ∈ row) :
    (row[pyIndex row x]? = some (some x) ∧
      ∀ j, j < pyIndex row x → row[j]? ≠ some (some x)) ∧
    ((some (normHeader h)) ∈ row →
      dictFind (stepRequired row i st h al).collected h
          = some (pyIndex row (normHeader h)) ∧
      dictFind (stepOptional row i st h al).collected h
          = some (pyIndex row (normHeader h))) ∧
    (∀ a : String, (some (normHeader h)) ∉ row → aliasFirstMatch al row = some a →
      dictFind (stepRequired row i st h al).collected h = some (pyIndex row a) ∧
      dictFind (stepOptional row i st h al).collected h = some (pyIndex row a)) := by
  refine ⟨⟨pyIndex_get row x hx, fun j hj => pyIndex_min row x j hj⟩, ?_, ?_⟩
  · intro hm
    constructor <;> simp [stepRequired, stepOptional, hc, hm, dictFind_insert_self]
  · intro a hcanon hfm
    constructor <;> simp [stepRequired, stepOptional, hcanon, hfm, dictFind_insert_self]

/-- Witness for C10 at a concrete input: in the row
`["price", "price"]` the recorded column for `price` is 0, the lowest of
the two occurrences. -/
theorem c10_lowest_column_witness :
    (([some "price", some "price"] : List Cell)[pyIndex [some "price", some "price"] "price"]?
        = some (some "price") ∧
      ∀ j, j < pyIndex [some "price", some "price"] "price" →
        ([some "price", some "price"] : List Cell)[j]? ≠ some (some "price")) ∧
    ((some (normHeader "price")) ∈ ([some "price", some "price"] : List Cell) →
      dictFind (stepRequired [some "price", some "price"] 0
          ⟨[], ["price"], none⟩ "price" []).collected "price"
        = some (pyIndex [some "price", some "price"] (normHeader "price")) ∧
      dictFind (stepOptional [some "price", some "price"] 0
          ⟨[], ["price"], none⟩ "price" []).collected "price"
        = some (pyIndex [some "price", some "price"] (normHeader "price"))) ∧
    (∀ a : String, (some (normHeader "price")) ∉ ([some "price", some "price"] : List Cell) →
      aliasFirstMatch [] [some "price", some "price"] = some a →
      dictFind (stepRequired [some "price", some "price"] 0
          ⟨[], ["price"], none⟩ "price" []).collected "price" = some (pyIndex [some "price", some "price"] a) ∧
      dictFind (stepOptional [some "price", some "price"] 0
          ⟨[], ["price"], none⟩ "price" []).collected "price" = some (pyIndex [some "price", some "price"] a)) :=
  c10_lowest_column [some "price", some "price"] 0 ⟨[], ["price"], none⟩ "price" [] "price"
    (by decide) (by decide)

end CSVHeader
